import Mathlib

/-!
# Verification of the simple-rag-script core

A shallow embedding of the Python sources of `simple-rag-script`
(`modules/embedding_manager.py`, `modules/history_manager.py`,
`modules/llm_client.py`, `modules/command_handler.py`, `rag_script.py`)
together with theorems settling the frozen claims about the system.

Modelling conventions:
* Python floats (numpy `float32`) are idealised as exact rationals `ℚ`.
* `np.linalg.norm` computes a square root, which is irrational in general;
  the square-root function is therefore a parameter `s : ℚ → ℚ` of every
  definition that needs it.  Concrete instances use `ratSqrt`, an exact
  rational square root on perfect-square rationals (all concrete inputs in
  this file have perfect-square norms, where `ratSqrt` agrees with the real
  square root).
* SQLite tables are modelled as Lean lists of row structures, kept in rowid
  (insertion) order, which is the order a `SELECT` without `ORDER BY`
  returns rows in.  Python's `sqlite3` module does not execute
  `PRAGMA foreign_keys = ON`, and SQLite keeps foreign-key enforcement
  (including `ON DELETE CASCADE`) disabled by default, so the model's
  `DELETE FROM files` does not touch the `chunks` table.
* Fallible external calls (file reads, HTTP requests, the local embedding
  model) are passed in as explicit outcome values (`Option`/inductives).
-/

namespace RagScript

/-! ## Exact rational square root (stand-in for `np.linalg.norm`'s sqrt)

`isqrt n` is the integer square root computed by downward linear search;
it is exact (`isqrt (k*k) = k`).  `ratSqrt` is exact on rationals whose
numerator and denominator are perfect squares, which covers every concrete
vector appearing in this file. -/

/-- Largest `r ≤ bound` with `r * r ≤ n` (0 if none). -/
def isqrtAux (n : Nat) : Nat → Nat
  | 0 => 0
  | r + 1 => if (r + 1) * (r + 1) ≤ n then r + 1 else isqrtAux n r

/-- Integer square root by linear search; exact on perfect squares. -/
def isqrt (n : Nat) : Nat := isqrtAux n n

/-- Rational square root, exact on perfect-square rationals (e.g.
`ratSqrt 1 = 1`, `ratSqrt 0 = 0`); used to instantiate the abstract
square-root parameter on concrete inputs. -/
def ratSqrt (x : ℚ) : ℚ := (isqrt x.num.toNat : ℚ) / (isqrt x.den : ℚ)

/-! ## Vector arithmetic (numpy operations used by `embedding_manager.py`) -/

/-- Model of `np.dot` for two equal-length vectors (zips, so extra coordinates of a
longer vector are ignored; the source only ever dots equal-length vectors). -/
def dotQ (a b : List ℚ) : ℚ := (List.zipWith (· * ·) a b).sum

/-! ## Python string splitting (`content.split('\n\n')` and `.strip()`) -/

/-- One step of Python `str.split(sep)`: scan left to right, cutting at each
leftmost non-overlapping occurrence of `sep`.  `fuel` bounds recursion
(callers pass the length of the scanned list, which suffices because every
step consumes at least one character). -/
def pySplitGo (sep : List Char) : Nat → List Char → List Char → List (List Char)
  | 0, acc, rest => [acc.reverse ++ rest]
  | _fuel + 1, acc, [] => [acc.reverse]
  | fuel + 1, acc, c :: rest =>
    if sep.isPrefixOf (c :: rest) then
      acc.reverse :: pySplitGo sep fuel [] (List.drop sep.length (c :: rest))
    else
      pySplitGo sep fuel (c :: acc) rest

/-- Python `str.split(sep)` for a non-empty separator. -/
def pySplit (sep : List Char) (cs : List Char) : List (List Char) :=
  pySplitGo sep cs.length [] cs

/-- Chunking, from the `index_file` line
`chunks = [chunk for chunk in content.split('\n\n') if chunk.strip()]`:
split on `"\n\n"` and keep the (unstripped) pieces whose `strip()` is
non-empty, i.e. the pieces containing at least one non-whitespace char. -/
def pyChunks (content : String) : List String :=
  ((pySplit ['\n', '\n'] content.data).filter
      (fun cs => cs.any (fun ch => !ch.isWhitespace))).map String.mk

/-- Python list slice `l[-m:]` (used as `argsort(...)[-actual_top_k:]`):
the last `m` elements, except that `l[-0:]` is the whole list. -/
def takeLastPy (m : Nat) (l : List Nat) : List Nat :=
  if m = 0 then l else l.drop (l.length - m)

/-! ## The embedding database (`files` and `chunks` tables)

`files (id INTEGER PRIMARY KEY, path TEXT UNIQUE, content_hash TEXT)`;
`chunks (id INTEGER PRIMARY KEY, file_id, chunk_text, embedding BLOB,
FOREIGN KEY (file_id) REFERENCES files (id) ON DELETE CASCADE)`.
The connection never issues `PRAGMA foreign_keys = ON`, and SQLite disables
foreign-key enforcement by default, so deleting a file row does **not**
cascade into `chunks`; the model reflects the connection's actual
behaviour.  `chunks.id` is never read by the source, so chunk rows carry no
id and live in rowid order in a list. -/

structure FileRow where
  id : Nat
  path : String
  content_hash : String
deriving DecidableEq, Repr

structure ChunkRow where
  file_id : Nat
  chunk_text : String
  embedding : List ℚ
deriving DecidableEq, Repr

structure EmbDb where
  files : List FileRow
  chunks : List ChunkRow
deriving DecidableEq, Repr

/-- Rowid chosen by SQLite for an insert without explicit id: one more than
the largest rowid currently in the table (1 for an empty table).  This is
`cur.lastrowid` after the `INSERT INTO files` statement. -/
def nextId (files : List FileRow) : Nat :=
  (files.map FileRow.id).foldr max 0 + 1

/- `EmbeddingManager._get_file_hash` is `hashlib.sha256(...).hexdigest()`;
the hash function is kept abstract as a parameter `h : String → String`
(deterministic, as sha256 is). -/

/-- Model of `EmbeddingManager._is_file_indexed_and_unchanged`: fetch the
`content_hash` of the row with this path (if any) and compare. -/
def isFileIndexedAndUnchanged (db : EmbDb) (path hash : String) : Bool :=
  match db.files.find? (fun r => r.path == path) with
  | none => false
  | some r => r.content_hash == hash

/-- The embedding provider, fixed at construction from configuration
(`_initialize_model`).  The local variant embeds a batch at once
(`SentenceTransformer.encode`; an exception is `none`); the api variant
embeds one chunk per HTTP request (`_get_embedding_from_api`; a caught
transport/format failure is `none`). -/
inductive EmbedMode where
  | localMode (encode : List String → Option (List (List ℚ)))
  | apiMode (embedOne : String → Option (List ℚ))

/-- Model of `EmbeddingManager.index_file`.  `readResult` is the outcome of
`open(file_path).read()` (`none` = an exception was raised).  The function
mirrors the source line by line: read; hash; skip if unchanged and not
forced; `DELETE FROM files WHERE path=?`; `INSERT INTO files`; split into
chunks; commit immediately when there are no chunks; otherwise embed
(batched for local mode, one request per chunk for api mode, skipping
chunks whose embedding is `none`), insert the chunk rows and commit.  Any
exception (failed read, failed local encode) rolls the transaction back and
returns `false` with the database unchanged. -/
def index_file (db : EmbDb) (mode : EmbedMode) (h : String → String)
    (path : String) (force : Bool) (readResult : Option String) :
    Bool × EmbDb :=
  match readResult with
  | none => (false, db)
  | some content =>
    let fileHash := h content
    if !force && isFileIndexedAndUnchanged db path fileHash then
      (false, db)
    else
      let files1 := db.files.filter (fun r => !(r.path == path))
      let fid := nextId files1
      let files2 := files1 ++ [⟨fid, path, fileHash⟩]
      let chunks := pyChunks content
      if chunks.isEmpty then
        (true, { db with files := files2 })
      else
        match mode with
        | .localMode encode =>
          match encode chunks with
          | none => (false, db)
          | some embs =>
            let newRows := (chunks.zip embs).map
              (fun ce => (⟨fid, ce.1, ce.2⟩ : ChunkRow))
            (true, { files := files2, chunks := db.chunks ++ newRows })
        | .apiMode embedOne =>
          let newRows := chunks.filterMap
            (fun c => (embedOne c).map (fun e => (⟨fid, c, e⟩ : ChunkRow)))
          (true, { files := files2, chunks := db.chunks ++ newRows })

/-! ## Retrieval (`EmbeddingManager.find_relevant_chunks`) -/

/-- Ascending comparison used to model `np.argsort(similarities)`:
index `i` precedes index `j` when its similarity is smaller, or when the
similarities are equal and `i ≤ j`.  (For arrays of fewer than 16 elements
numpy's default quicksort is an insertion sort and hence stable, so equal
values keep ascending index order.) -/
def ascRel (xs : List ℚ) (i j : Nat) : Prop :=
  xs.getD i 0 < xs.getD j 0 ∨ (xs.getD i 0 = xs.getD j 0 ∧ i ≤ j)

instance (xs : List ℚ) : DecidableRel (ascRel xs) := fun _ _ =>
  inferInstanceAs (Decidable (_ ∨ _))

/-- Model of `np.argsort`: the indices `0, …, n-1` sorted so that the values are
ascending, equal values keeping ascending index order. -/
def argsortAsc (xs : List ℚ) : List Nat :=
  List.insertionSort (ascRel xs) (List.range xs.length)

/-- The chunk rows kept by `valid_indices = np.where(c_norms > 0)[0]`:
those whose embedding has positive norm, in storage order. -/
def chunkValid (s : ℚ → ℚ) (rows : List (String × List ℚ)) :
    List (String × List ℚ) :=
  rows.filter (fun r => decide (0 < s (dotQ r.2 r.2)))

/-- The line
`similarities = np.dot(normalized_chunk_embeddings, question_embedding)`
for the valid chunks: the dot product of each chunk embedding divided by
its norm with the query embedding divided by its norm. -/
def simsOf (s : ℚ → ℚ) (rows : List (String × List ℚ)) (q0 : List ℚ)
    (qn : ℚ) : List ℚ :=
  (chunkValid s rows).map
    (fun r => dotQ (r.2.map (· / s (dotQ r.2 r.2))) (q0.map (· / qn)))

/-- Model of `EmbeddingManager.find_relevant_chunks`, with the question's embedding
passed in (`none` when `get_embedding` returned `None`) and `top_k` read
from configuration.  Mirrors the source: no embedding → `[]`; no stored
chunks → `[]`; zero query norm → `[]`; keep positive-norm chunks (none →
`[]`); normalise, compute similarities, and return the texts selected by
`np.argsort(similarities)[-min(top_k, len(valid)):][::-1]`. -/
def find_relevant_chunks (s : ℚ → ℚ) (top_k : Nat)
    (rows : List (String × List ℚ)) (qOpt : Option (List ℚ)) : List String :=
  match qOpt with
  | none => []
  | some q0 =>
    if rows = [] then []
    else
      let qn := s (dotQ q0 q0)
      if qn = 0 then []
      else
        let valid := chunkValid s rows
        if valid = [] then []
        else
          let sims := simsOf s rows q0 qn
          let m := min top_k valid.length
          ((takeLastPy m (argsortAsc sims)).reverse).map
            (fun j => (valid.map Prod.fst).getD j "")

/-- Retrieval from a database state: `find_relevant_chunks` over the rows of
(`SELECT chunk_text, embedding FROM chunks`, rowid order). -/
def findRelevantChunksDb (s : ℚ → ℚ) (top_k : Nat) (db : EmbDb)
    (qOpt : Option (List ℚ)) : List String :=
  find_relevant_chunks s top_k
    (db.chunks.map (fun r => (r.chunk_text, r.embedding))) qOpt

/-! ## Remote embedding HTTP call (`_get_embedding_from_api`) -/

/-- The HTTP request issued by `_get_embedding_from_api`:
`requests.post(self.embedding_url, headers={"Content-Type":
"application/json"}, data=json.dumps({"input": chunk, "model":
"local-model"}))`.  `timeout` records the `timeout=` keyword argument of
`requests.post`: `none` means the keyword is absent, i.e. `requests`
applies no timeout at all; `some (c, r)` would be a
`timeout=(connect, read)` pair in seconds. -/
structure EmbHttpRequest where
  url : String
  contentTypeJson : Bool
  inputText : String
  modelName : String
  timeout : Option (Nat × Nat)
deriving DecidableEq, Repr

/-- The request `_get_embedding_from_api` builds for a chunk of text: no
`timeout=` keyword is passed to `requests.post`. -/
def apiEmbedHttpRequest (embeddingUrl text : String) : EmbHttpRequest :=
  { url := embeddingUrl
    contentTypeJson := true
    inputText := text
    modelName := "local-model"
    timeout := none }

/-- Outcome of the embedding HTTP exchange as seen by
`_get_embedding_from_api`: a `requests.exceptions.RequestException`
(connection error, or an error status via `raise_for_status`), a response
whose JSON lacks `["data"][0]["embedding"]` (`KeyError`/`IndexError`), or a
well-formed embedding. -/
inductive ApiEmbedResponse where
  | transportError (msg : String)
  | malformed (body : String)
  | ok (embedding : List ℚ)

/-- `_get_embedding_from_api`'s result: both failure branches are caught
and converted to `None`; success yields the embedding vector. -/
def getEmbeddingFromApi (resp : ApiEmbedResponse) : Option (List ℚ) :=
  match resp with
  | .transportError _ => none
  | .malformed _ => none
  | .ok e => some e

/-! ## The chat-history database (`chat_history` table)

`chat_history (id INTEGER PRIMARY KEY, context_name, role, content,
timestamp DATETIME DEFAULT CURRENT_TIMESTAMP)`.  Timestamps are modelled
as a strictly increasing `Nat` counter: `CURRENT_TIMESTAMP` has one-second
granularity, so two inserts within the same second share a timestamp in
the real system and their `ORDER BY timestamp DESC` order is then
unspecified; the model gives every insert a fresh timestamp, i.e. it
describes runs in which appends happen in distinct seconds. -/

structure HistRow where
  ts : Nat
  context_name : String
  role : String
  content : String
deriving DecidableEq, Repr

structure HistDb where
  rows : List HistRow
  nextTs : Nat
deriving DecidableEq, Repr

/-- Model of `ChatHistoryManager.add_message_to_context` (successful insert;
an `sqlite3.Error` would be printed and leave the table unchanged). -/
def addMessageToContext (db : HistDb) (name role content : String) :
    HistDb :=
  { rows := db.rows ++ [⟨db.nextTs, name, role, content⟩]
    nextTs := db.nextTs + 1 }

/-- Comparison used by `ORDER BY timestamp DESC`: newer rows first. -/
def descByTs (a b : HistRow) : Prop := b.ts ≤ a.ts

instance : DecidableRel descByTs := fun _ _ =>
  inferInstanceAs (Decidable (_ ≤ _))

/-- Model of `ChatHistoryManager.get_context_history`: select the rows of the
context ordered `timestamp DESC`, apply `LIMIT` when given, then reverse
the fetched page to restore chronological order and project
`(role, content)`. -/
def getContextHistory (db : HistDb) (name : String) (limit : Option Nat) :
    List (String × String) :=
  let matching := db.rows.filter (fun r => r.context_name == name)
  let sorted := List.insertionSort descByTs matching
  let page := match limit with
    | none => sorted
    | some m => sorted.take m
  page.reverse.map (fun r => (r.role, r.content))

/-- Model of `ChatHistoryManager.delete_context`:
`DELETE FROM chat_history WHERE context_name = ?`, commit, `return True`
(an `sqlite3.Error` would return `False`; modelled on the success path). -/
def deleteContext (db : HistDb) (name : String) : Bool × HistDb :=
  (true, { db with rows := db.rows.filter (fun r => !(r.context_name == name)) })

/-- Model of `ChatHistoryManager.context_exists`:
`SELECT 1 FROM chat_history WHERE context_name = ? LIMIT 1` — true iff at
least one row carries the name. -/
def contextExists (db : HistDb) (name : String) : Bool :=
  db.rows.any (fun r => r.context_name == name)

/-- The caller-level guard of `command_handler.handle_context_switch`
(line 119): a switch target is accepted when it is the literal name
`"default"` or `context_exists` holds for it. -/
def switchTargetAccepted (db : HistDb) (newContext : String) : Bool :=
  newContext == "default" || contextExists db newContext

/-! ## The chat-completion client (`llm_client.ask_local_llm`) and the
driver loop (`rag_script.main`) -/

/-- Outcome of loading and validating `config.json` inside
`ask_local_llm`: the file may be missing (`FileNotFoundError`), be invalid
JSON (`json.JSONDecodeError`), or parse; a parsed configuration carries the
optional `server_url` (its absence raises the caught `ValueError`). -/
inductive ConfigLoad where
  | fileNotFound (msg : String)
  | jsonError (msg : String)
  | ok (server_url : Option String)

/-- One line of the streamed chat-completion response after UTF-8 decoding
and JSON parsing (the JSON parser is external collaborator code, so lines
arrive pre-classified): an empty line, a line not starting with `"data: "`,
the `data: [DONE]` end marker, a `data:` line whose payload is not valid
JSON (skipped by the `continue`), or a parsed chunk whose extracted token
is `tok` (the empty string when `choices[0].delta.content` is absent). -/
inductive StreamLine where
  | emptyLine
  | nonData (raw : String)
  | doneMarker
  | badJson (raw : String)
  | parsed (tok : String)

/-- Outcome of `requests.post(url, …, timeout=(5, 300), stream=True)` plus
`raise_for_status()`: a timeout, another `RequestException`, or a line
stream. -/
inductive ChatHttpOutcome where
  | timeoutErr
  | requestErr (msg : String)
  | ok (lines : List StreamLine)

/-- The token-yielding loop over `response.iter_lines()`: stop at
`[DONE]`, skip empty/non-data/bad-JSON lines, yield non-empty tokens. -/
def consumeStream : List StreamLine → List String
  | [] => []
  | .emptyLine :: rest => consumeStream rest
  | .nonData _ :: rest => consumeStream rest
  | .doneMarker :: _ => []
  | .badJson _ :: rest => consumeStream rest
  | .parsed tok :: rest =>
    if tok = "" then consumeStream rest else tok :: consumeStream rest

/-- `llm_client.ask_local_llm` as the finite list of strings the generator
yields.  Configuration failures (missing file, invalid JSON, missing
`server_url`) and transport failures (timeout, other request exceptions)
are caught inside the generator and yielded as a single human-readable
error string; the stream of a successful exchange is consumed by
`consumeStream`.  The generator never lets these exceptions escape, which
the model expresses by being a total function into `List String`. -/
def askLocalLlm (cfg : ConfigLoad) (http : ChatHttpOutcome) : List String :=
  match cfg with
  | .fileNotFound msg => ["Error processing configuration file: " ++ msg]
  | .jsonError msg => ["Error processing configuration file: " ++ msg]
  | .ok server_url =>
    match server_url with
    | none =>
      ["Error processing configuration file: Config error: 'server_url' is missing in llm_settings."]
    | some _ =>
      match http with
      | .timeoutErr => ["Connection to LLM server timed out."]
      | .requestErr msg => ["Connection error to LLM server: " ++ msg]
      | .ok lines => consumeStream lines

/-- The answer-handling tail of `rag_script.main` (lines 128–142): join
every yielded token into `final_answer` and, when context is enabled,
append the user question and the assistant answer to the active context. -/
def mainAnswerFlow (tokens : List String) (ctxEnabled : Bool) (db : HistDb)
    (ctx question : String) : HistDb :=
  let finalAnswer := String.join tokens
  if ctxEnabled then
    addMessageToContext (addMessageToContext db ctx "user" question)
      ctx "assistant" finalAnswer
  else db

/-! ## Spec-side ranking definition (for claim C3)

Modelled from the spec: "returns the texts of the `top_k` highest-scoring
chunks in descending similarity order", with the tie-break amended to what
the code actually does (the later-stored chunk first). -/

/-- Descending comparison: index `i` precedes index `j` when its similarity
is larger, or when the similarities are equal and `i ≥ j` (later-stored
first). -/
def descLaterFirstRel (xs : List ℚ) (i j : Nat) : Prop :=
  xs.getD j 0 < xs.getD i 0 ∨ (xs.getD i 0 = xs.getD j 0 ∧ j ≤ i)

instance (xs : List ℚ) : DecidableRel (descLaterFirstRel xs) := fun _ _ =>
  inferInstanceAs (Decidable (_ ∨ _))

/-- All indices ranked by descending similarity, equal similarities ranked
later-stored first. -/
def rankDescLaterFirst (xs : List ℚ) : List Nat :=
  List.insertionSort (descLaterFirstRel xs) (List.range xs.length)

/-- Modelled from the spec (§4.4 retrieval, tie-break amended): keep the
same input validation and cosine similarities as the code, rank all valid
chunks by descending similarity with later-stored-first ties, and return
the texts of the first `top_k`. -/
def specTopKTexts (s : ℚ → ℚ) (top_k : Nat)
    (rows : List (String × List ℚ)) (qOpt : Option (List ℚ)) : List String :=
  match qOpt with
  | none => []
  | some q0 =>
    if rows = [] then []
    else
      let qn := s (dotQ q0 q0)
      if qn = 0 then []
      else
        let valid := chunkValid s rows
        if valid = [] then []
        else
          let sims := simsOf s rows q0 qn
          ((rankDescLaterFirst sims).take top_k).map
            (fun j => (valid.map Prod.fst).getD j "")

/-! ## Helper lemmas about the ranking pipeline -/

theorem ascRel_total (xs : List ℚ) : ∀ i j, ascRel xs i j ∨ ascRel xs j i := by
  intro i j
  rcases lt_trichotomy (xs.getD i 0) (xs.getD j 0) with h | h | h
  · exact Or.inl (Or.inl h)
  · rcases Nat.le_total i j with hij | hij
    · exact Or.inl (Or.inr ⟨h, hij⟩)
    · exact Or.inr (Or.inr ⟨h.symm, hij⟩)
  · exact Or.inr (Or.inl h)

theorem ascRel_trans (xs : List ℚ) :
    ∀ i j k, ascRel xs i j → ascRel xs j k → ascRel xs i k := by
  intro i j k hij hjk
  rcases hij with h1 | ⟨h1, h1'⟩ <;> rcases hjk with h2 | ⟨h2, h2'⟩
  · exact Or.inl (h1.trans h2)
  · exact Or.inl (h2 ▸ h1)
  · exact Or.inl (h1 ▸ h2)
  · exact Or.inr ⟨h1.trans h2, h1'.trans h2'⟩

theorem descLaterFirstRel_iff (xs : List ℚ) (i j : Nat) :
    descLaterFirstRel xs i j ↔ ascRel xs j i := by
  unfold descLaterFirstRel ascRel
  constructor
  · rintro (h | ⟨h, h'⟩)
    · exact Or.inl h
    · exact Or.inr ⟨h.symm, h'⟩
  · rintro (h | ⟨h, h'⟩)
    · exact Or.inl h
    · exact Or.inr ⟨h.symm, h'⟩

theorem descLaterFirstRel_total (xs : List ℚ) :
    ∀ i j, descLaterFirstRel xs i j ∨ descLaterFirstRel xs j i := by
  intro i j
  rcases ascRel_total xs j i with h | h
  · exact Or.inl ((descLaterFirstRel_iff xs i j).mpr h)
  · exact Or.inr ((descLaterFirstRel_iff xs j i).mpr h)

theorem descLaterFirstRel_trans (xs : List ℚ) :
    ∀ i j k, descLaterFirstRel xs i j → descLaterFirstRel xs j k →
      descLaterFirstRel xs i k := by
  intro i j k hij hjk
  rw [descLaterFirstRel_iff] at hij hjk ⊢
  exact ascRel_trans xs k j i hjk hij

theorem descLaterFirstRel_antisymm (xs : List ℚ) :
    ∀ i j, descLaterFirstRel xs i j → descLaterFirstRel xs j i → i = j := by
  intro i j hij hji
  rcases hij with h1 | ⟨h1, h1'⟩ <;> rcases hji with h2 | ⟨h2, h2'⟩
  · exact absurd h2 (lt_asymm h1)
  · exact absurd (h2 ▸ h1) (lt_irrefl _)
  · exact absurd (h1 ▸ h2) (lt_irrefl _)
  · exact Nat.le_antisymm h2' h1'

/-- `np.argsort(xs)[::-1]` is exactly the ranking by descending value with
later-index-first tie-breaking. -/
theorem argsortAsc_reverse (xs : List ℚ) :
    (argsortAsc xs).reverse = rankDescLaterFirst xs := by
  haveI : IsTotal Nat (ascRel xs) := ⟨ascRel_total xs⟩
  haveI : IsTrans Nat (ascRel xs) := ⟨fun a b c => ascRel_trans xs a b c⟩
  haveI : IsTotal Nat (descLaterFirstRel xs) := ⟨descLaterFirstRel_total xs⟩
  haveI : IsTrans Nat (descLaterFirstRel xs) :=
    ⟨fun a b c => descLaterFirstRel_trans xs a b c⟩
  haveI : IsAntisymm Nat (descLaterFirstRel xs) :=
    ⟨fun a b => descLaterFirstRel_antisymm xs a b⟩
  have hperm : List.Perm (argsortAsc xs).reverse (rankDescLaterFirst xs) := by
    refine (List.reverse_perm (argsortAsc xs)).trans ?_
    exact (List.perm_insertionSort _ _).trans
      (List.perm_insertionSort (descLaterFirstRel xs) _).symm
  have hsortAsc : List.Sorted (ascRel xs) (argsortAsc xs) :=
    List.sorted_insertionSort _ _
  have hsortRev : List.Sorted (descLaterFirstRel xs) (argsortAsc xs).reverse := by
    rw [List.Sorted, List.pairwise_reverse]
    exact hsortAsc.imp (fun h => (descLaterFirstRel_iff xs _ _).mpr h)
  have hsortDesc : List.Sorted (descLaterFirstRel xs) (rankDescLaterFirst xs) :=
    List.sorted_insertionSort _ _
  exact List.eq_of_perm_of_sorted hperm hsortRev hsortDesc

theorem length_argsortAsc (xs : List ℚ) : (argsortAsc xs).length = xs.length := by
  rw [argsortAsc, List.length_insertionSort, List.length_range]

theorem length_rankDescLaterFirst (xs : List ℚ) :
    (rankDescLaterFirst xs).length = xs.length := by
  rw [rankDescLaterFirst, List.length_insertionSort, List.length_range]

/-- The selection `argsort(sims)[-min(top_k, n):][::-1]` equals taking the
first `top_k` of the descending later-first ranking, for `top_k ≠ 0`. -/
theorem takeLastPy_argsort_reverse (xs : List ℚ) (k : Nat) (hk : k ≠ 0) :
    (takeLastPy (min k xs.length) (argsortAsc xs)).reverse
      = (rankDescLaterFirst xs).take k := by
  rcases Nat.eq_zero_or_pos xs.length with hn | hn
  · have hxs : xs = [] := List.eq_nil_of_length_eq_zero hn
    subst hxs
    simp [takeLastPy, argsortAsc, rankDescLaterFirst]
  · have hm : min k xs.length ≠ 0 := by
      have := Nat.one_le_iff_ne_zero.mpr hk
      omega
    rw [takeLastPy, if_neg hm, List.reverse_drop]
    simp only [length_argsortAsc]
    rw [argsortAsc_reverse]
    have hmn : xs.length - (xs.length - min k xs.length) = min k xs.length := by
      omega
    rw [hmn]
    rcases Nat.le_total k xs.length with hkn | hkn
    · rw [Nat.min_eq_left hkn]
    · rw [Nat.min_eq_right hkn, List.take_of_length_le, List.take_of_length_le]
      · rw [length_rankDescLaterFirst]; exact hkn
      · rw [length_rankDescLaterFirst]

theorem mem_of_mem_takeLastPy {j m : Nat} {l : List Nat}
    (h : j ∈ takeLastPy m l) : j ∈ l := by
  unfold takeLastPy at h
  split at h
  · exact h
  · exact List.mem_of_mem_drop h

theorem mem_argsortAsc_lt {j : Nat} {xs : List ℚ} (h : j ∈ argsortAsc xs) :
    j < xs.length := by
  rw [argsortAsc, List.mem_insertionSort, List.mem_range] at h
  exact h

/-! ## Claim theorems -/

/-- Claim C3 (corrected), amended claim: for every stored set of chunk
embeddings with at least one chunk of non-zero (computed) norm and every
query embedding of non-zero (computed) norm, `find_relevant_chunks` returns
the texts of the `top_k` chunks with the highest cosine similarity in
descending similarity order, and when two chunks have equal similarity the
one stored **later** appears first (reverse storage order tie-break, the
effect of `np.argsort(...)[-k:][::-1]`); equivalently, it agrees with the
spec-side ranking `specTopKTexts`. -/
theorem C3_top_k_descending_later_first (s : ℚ → ℚ) (k : Nat)
    (rows : List (String × List ℚ)) (q : List ℚ)
    (hk : k ≠ 0) (hq : s (dotQ q q) ≠ 0)
    (hvalid : chunkValid s rows ≠ [])
    (_hdim : ∀ r ∈ rows, r.2.length = q.length) :
    find_relevant_chunks s k rows (some q) = specTopKTexts s k rows (some q) := by
  have hrows : rows ≠ [] := by
    intro h
    exact hvalid (by simp [chunkValid, h])
  simp only [find_relevant_chunks, specTopKTexts]
  rw [if_neg hrows, if_neg hrows, if_neg hq, if_neg hq, if_neg hvalid,
    if_neg hvalid]
  have hlen : (simsOf s rows q (s (dotQ q q))).length
      = (chunkValid s rows).length := List.length_map _ _
  rw [← hlen]
  exact congrArg _ (takeLastPy_argsort_reverse _ k hk)

/-- Witness for C3: the spec's own example (§8), chunks `[1,0]`, `[0,1]`,
`[-1,0]` with query `[1,0]` and `top_k = 2`. -/
theorem C3_top_k_descending_later_first_witness :
    (2 : Nat) ≠ 0 ∧
      ratSqrt (dotQ [1, 0] [1, 0]) ≠ 0 ∧
      chunkValid ratSqrt [("a", [1, 0]), ("b", [0, 1]), ("c", [-1, 0])] ≠ [] ∧
      find_relevant_chunks ratSqrt 2
          [("a", [1, 0]), ("b", [0, 1]), ("c", [-1, 0])] (some [1, 0])
        = specTopKTexts ratSqrt 2
          [("a", [1, 0]), ("b", [0, 1]), ("c", [-1, 0])] (some [1, 0]) := by
  have h1 : (2 : Nat) ≠ 0 := by decide
  have h2 : ratSqrt (dotQ [1, 0] [1, 0]) ≠ 0 := by
    norm_num [dotQ, ratSqrt, isqrt, isqrtAux]
  have h3 : chunkValid ratSqrt [("a", [1, 0]), ("b", [0, 1]), ("c", [-1, 0])] ≠ [] := by
    have : chunkValid ratSqrt [("a", [1, 0]), ("b", [0, 1]), ("c", [-1, 0])]
        = [("a", [1, 0]), ("b", [0, 1]), ("c", [-1, 0])] := by
      norm_num [chunkValid, dotQ, ratSqrt, isqrt, isqrtAux, List.filter]
    rw [this]
    simp
  refine ⟨h1, h2, h3, ?_⟩
  exact C3_top_k_descending_later_first ratSqrt 2 _ _ h1 h2 h3 (by decide)

/-- Claim C8 (confirmed): a query embedding of zero magnitude yields the
empty result whatever is stored, and every returned text is the text of a
stored chunk whose embedding has non-zero magnitude (so a zero-magnitude
chunk, whose text no other chunk shares, is never returned). -/
theorem C8_zero_magnitude_handling (s : ℚ → ℚ) (k : Nat)
    (rows : List (String × List ℚ)) (q : List ℚ) (hs0 : s 0 = 0) :
    (dotQ q q = 0 → find_relevant_chunks s k rows (some q) = []) ∧
    (∀ t ∈ find_relevant_chunks s k rows (some q),
      ∃ r ∈ rows, r.1 = t ∧ dotQ r.2 r.2 ≠ 0) := by
  constructor
  · intro hq0
    simp only [find_relevant_chunks]
    by_cases hrows : rows = []
    · rw [if_pos hrows]
    · rw [if_neg hrows, hq0, hs0, if_pos rfl]
  · intro t ht
    simp only [find_relevant_chunks] at ht
    by_cases hrows : rows = []
    · rw [if_pos hrows] at ht
      exact absurd ht (List.not_mem_nil t)
    rw [if_neg hrows] at ht
    by_cases hqn : s (dotQ q q) = 0
    · rw [if_pos hqn] at ht
      exact absurd ht (List.not_mem_nil t)
    rw [if_neg hqn] at ht
    by_cases hval : chunkValid s rows = []
    · rw [if_pos hval] at ht
      exact absurd ht (List.not_mem_nil t)
    rw [if_neg hval] at ht
    rw [List.mem_map] at ht
    obtain ⟨j, hj, hgetD⟩ := ht
    have hjlt : j < (chunkValid s rows).length := by
      have hj1 := mem_of_mem_takeLastPy (List.mem_reverse.mp hj)
      have hj2 := mem_argsortAsc_lt hj1
      rwa [simsOf, List.length_map] at hj2
    have hjlt' : j < ((chunkValid s rows).map Prod.fst).length := by
      rwa [List.length_map]
    rw [List.getD_eq_getElem _ _ hjlt', List.getElem_map] at hgetD
    have hmem : (chunkValid s rows)[j] ∈ chunkValid s rows :=
      List.getElem_mem hjlt
    simp only [chunkValid] at hmem
    rw [List.mem_filter] at hmem
    obtain ⟨hrow, hpos⟩ := hmem
    have hpos' := of_decide_eq_true hpos
    refine ⟨(chunkValid s rows)[j], hrow, hgetD, ?_⟩
    intro h0
    simp only [chunkValid] at h0
    rw [h0, hs0] at hpos'
    exact lt_irrefl 0 hpos'

/-- Witness for C8: a single stored chunk with embedding `[0,0]` and the
query `[0,0]`, with the exact square root `ratSqrt`. -/
theorem C8_zero_magnitude_handling_witness :
    ratSqrt 0 = 0 ∧
      (dotQ [(0 : ℚ), 0] [0, 0] = 0 →
        find_relevant_chunks ratSqrt 5 [("a", [0, 0])] (some [0, 0]) = []) ∧
      (∀ t ∈ find_relevant_chunks ratSqrt 5 [("a", [0, 0])] (some [0, 0]),
        ∃ r ∈ [(("a" : String), [(0 : ℚ), 0])], r.1 = t ∧ dotQ r.2 r.2 ≠ 0) := by
  have hs0 : ratSqrt 0 = 0 := by
    norm_num [ratSqrt, isqrt, isqrtAux]
  exact ⟨hs0, C8_zero_magnitude_handling ratSqrt 5 [("a", [0, 0])] [0, 0] hs0⟩

/-- Claim C3 counterexample: two chunks stored with the identical embedding
`[1,0]` tie on every query; for the query `[1,0]` the code returns the
later-stored chunk `"b"` first, so the claimed stable earlier-first
tie-break (`["a", "b"]`) is false. -/
theorem C3_tie_break_counterexample :
    find_relevant_chunks ratSqrt 2 [("a", [1, 0]), ("b", [1, 0])] (some [1, 0])
        = ["b", "a"] ∧
      find_relevant_chunks ratSqrt 2 [("a", [1, 0]), ("b", [1, 0])] (some [1, 0])
        ≠ ["a", "b"] := by
  have hval : find_relevant_chunks ratSqrt 2 [("a", [1, 0]), ("b", [1, 0])]
      (some [1, 0]) = ["b", "a"] := by
    norm_num [find_relevant_chunks, chunkValid, simsOf, dotQ, ratSqrt, isqrt,
      isqrtAux, argsortAsc, ascRel, takeLastPy, List.insertionSort,
      List.orderedInsert, List.filter, List.range_succ, List.getD,
      List.cons_ne_nil]
  refine ⟨hval, ?_⟩
  rw [hval]
  decide

/-- Claim C2 (confirmed): when `index_file` hits a whole-file failure — the
file read raises, or the local batch embedding raises — the exception
handler rolls the transaction back and returns `false`, leaving the
database (all `FileRecord`s and `ChunkRecord`s) exactly as before the
call. -/
theorem C2_whole_file_failure_commits_nothing (db : EmbDb) (mode : EmbedMode)
    (h : String → String) (path : String) (force : Bool)
    (readResult : Option String)
    (hfail : readResult = none ∨
      ∃ c enc, readResult = some c ∧ mode = EmbedMode.localMode enc ∧
        pyChunks c ≠ [] ∧ enc (pyChunks c) = none) :
    index_file db mode h path force readResult = (false, db) := by
  rcases hfail with hnone | ⟨c, enc, hc, hmode, hchunks, henc⟩
  · rw [hnone]
    rfl
  · subst hc
    subst hmode
    simp only [index_file]
    split
    · rfl
    · have hne : ¬(pyChunks c).isEmpty = true := by
        simp [List.isEmpty_iff, hchunks]
      rw [if_neg hne, henc]

/-- Witness for C2: a failed file read on an empty store. -/
theorem C2_whole_file_failure_commits_nothing_witness :
    index_file ⟨[], []⟩ (.apiMode fun _ => some [1]) (fun s => s) "f" false none
      = (false, ⟨[], []⟩) :=
  C2_whole_file_failure_commits_nothing _ _ _ _ _ _ (Or.inl rfl)

/-- A successful `index_file` call leaves the `files` table holding exactly
the rows of other paths plus one fresh row `(path, hash of the content)`. -/
theorem index_file_true_files (db : EmbDb) (mode : EmbedMode)
    (h : String → String) (path : String) (force : Bool) (c : String)
    (db₁ : EmbDb)
    (h1 : index_file db mode h path force (some c) = (true, db₁)) :
    db₁.files = db.files.filter (fun r => !(r.path == path)) ++
      [⟨nextId (db.files.filter (fun r => !(r.path == path))), path, h c⟩] := by
  simp only [index_file] at h1
  split at h1
  · simp at h1
  · split at h1
    · injection h1 with _ h2
      rw [← h2]
    · cases mode with
      | localMode encode =>
        split at h1
        · split at h1
          · exact absurd h1 (by simp)
          · injection h1 with _ h2
            rw [← h2]
        · next _ _ heq => exact EmbedMode.noConfusion heq
      | apiMode embedOne =>
        split at h1
        · next _ _ heq => exact EmbedMode.noConfusion heq
        · injection h1 with _ h2
          rw [← h2]

/-- Claim C7 (confirmed): after any successful `index_file(p, ·)` on content
`c`, a further call `index_file(p, force=false)` that reads the same
content `c` takes the `_is_file_indexed_and_unchanged` early exit: it
returns `false` and leaves the database untouched (no embedding or storage
work is modelled on that path). -/
theorem C7_unchanged_skip_idempotent (db db₁ : EmbDb) (mode mode₂ : EmbedMode)
    (h : String → String) (path : String) (force : Bool) (c : String)
    (h1 : index_file db mode h path force (some c) = (true, db₁)) :
    index_file db₁ mode₂ h path false (some c) = (false, db₁) := by
  have hf := index_file_true_files db mode h path force c db₁ h1
  have hleft : (db.files.filter (fun r => !(r.path == path))).find?
      (fun r => r.path == path) = none := by
    rw [List.find?_eq_none]
    intro x hx
    rw [List.mem_filter] at hx
    simpa using hx.2
  have hunch : isFileIndexedAndUnchanged db₁ path (h c) = true := by
    simp only [isFileIndexedAndUnchanged, hf, List.find?_append, hleft]
    simp [List.find?]
  simp [index_file, hunch]

/-- Witness for C7: force-index the one-chunk file `"A"` into an empty
store, then index it again unforced with unchanged content. -/
theorem C7_unchanged_skip_idempotent_witness :
    index_file ⟨[], []⟩ (.apiMode fun _ => some [1]) (fun s => s) "f" true
        (some "A")
      = (true, ⟨[⟨1, "f", "A"⟩], [⟨1, "A", [1]⟩]⟩) ∧
    index_file ⟨[⟨1, "f", "A"⟩], [⟨1, "A", [1]⟩]⟩ (.apiMode fun _ => some [1])
        (fun s => s) "f" false (some "A")
      = (false, ⟨[⟨1, "f", "A"⟩], [⟨1, "A", [1]⟩]⟩) := by
  have h1 : index_file ⟨[], []⟩ (.apiMode fun _ => some [1]) (fun s => s) "f"
      true (some "A") = (true, ⟨[⟨1, "f", "A"⟩], [⟨1, "A", [1]⟩]⟩) := by
    decide
  exact ⟨h1, C7_unchanged_skip_idempotent _ _ _ _ _ _ _ _ h1⟩

/-- Claim C1 (code bug): force-indexing path `"f"` with content `"A"` and
then with content `"B"` leaves the chunk derived from `"A"` in the
`chunks` table — the `files` row for `"A"` is deleted and replaced, but the
`ON DELETE CASCADE` declared in the schema never fires because the
connection leaves SQLite's foreign-key enforcement at its default (off).
The stale chunk is even returned by `find_relevant_chunks`.  (Both indexing
calls use the one-dimensional api-mode embedder `fun _ => some [1]` and the
identity as the content hash.) -/
theorem C1_stale_chunks_survive_forced_reindex :
    index_file ⟨[], []⟩ (.apiMode fun _ => some [1]) (fun s => s) "f" true
        (some "A")
      = (true, ⟨[⟨1, "f", "A"⟩], [⟨1, "A", [1]⟩]⟩) ∧
    index_file ⟨[⟨1, "f", "A"⟩], [⟨1, "A", [1]⟩]⟩ (.apiMode fun _ => some [1])
        (fun s => s) "f" true (some "B")
      = (true, ⟨[⟨1, "f", "B"⟩], [⟨1, "A", [1]⟩, ⟨1, "B", [1]⟩]⟩) ∧
    "A" ∈ List.map ChunkRow.chunk_text [⟨1, "A", [1]⟩, ⟨1, "B", [1]⟩] ∧
    findRelevantChunksDb ratSqrt 5
        ⟨[⟨1, "f", "B"⟩], [⟨1, "A", [1]⟩, ⟨1, "B", [1]⟩]⟩ (some [1])
      = ["B", "A"] := by
  refine ⟨by decide, by decide, by decide, ?_⟩
  norm_num [findRelevantChunksDb, find_relevant_chunks, chunkValid, simsOf,
    dotQ, ratSqrt, isqrt, isqrtAux, argsortAsc, ascRel, takeLastPy,
    List.insertionSort, List.orderedInsert, List.filter, List.range_succ,
    List.getD, List.cons_ne_nil]

/-- Claim C9 (confirmed): `delete_context` always returns `true`, removes
exactly the turns of the targeted context (also when there are none), and
is idempotent. -/
theorem C9_delete_context_idempotent_true (db : HistDb) (name : String) :
    (deleteContext db name).1 = true ∧
    (deleteContext db name).2.rows
      = db.rows.filter (fun r => !(r.context_name == name)) ∧
    (∀ r ∈ (deleteContext db name).2.rows, r.context_name ≠ name) ∧
    deleteContext (deleteContext db name).2 name = deleteContext db name := by
  refine ⟨rfl, rfl, ?_, ?_⟩
  · intro r hr
    rw [deleteContext] at hr
    simp only [List.mem_filter] at hr
    simpa using hr.2
  · simp [deleteContext, List.filter_filter]

/-- Claim C5 counterexample: on an empty store, `context_exists("default")`
is `false`, not `true` — the store has no special case for `"default"`. -/
theorem C5_context_exists_default_counterexample :
    contextExists ⟨[], 0⟩ "default" = false := rfl

/-- Claim C5 (corrected), amended claim: `context_exists(name)` is true
exactly when at least one turn is stored for `name` — so it is `false` for
`"default"` with zero turns; the guarantee that `"default"` always exists
lives in the caller: `handle_context_switch` accepts the target
`"default"` without consulting `context_exists`. -/
theorem C5_default_exists_at_caller (db : HistDb) :
    switchTargetAccepted db "default" = true ∧
    (contextExists db "default" = true ↔
      ∃ r ∈ db.rows, r.context_name = "default") := by
  constructor
  · simp [switchTargetAccepted]
  · simp [contextExists, List.any_eq_true, beq_iff_eq]

/-- Claim C6 counterexample: the embedding request for the text `"hello"`
carries no timeout at all (`requests.post` is called without a `timeout=`
keyword), so it is not issued with a connect timeout and a longer response
timeout. -/
theorem C6_no_timeout_counterexample :
    (apiEmbedHttpRequest "http://localhost:1234/v1/embeddings" "hello").timeout
      = none := rfl

/-- Claim C6 (corrected), amended claim: for every input text the api-mode
embedding call issues its HTTP request with **no** timeout (the caller can
block indefinitely on an unresponsive server); transport failures and
malformed responses are converted to the failure value `None` rather than
escaping to the caller. -/
theorem C6_embedding_request_has_no_timeout (url text msg body : String)
    (e : List ℚ) :
    (apiEmbedHttpRequest url text).timeout = none ∧
    getEmbeddingFromApi (.transportError msg) = none ∧
    getEmbeddingFromApi (.malformed body) = none ∧
    getEmbeddingFromApi (.ok e) = some e :=
  ⟨rfl, rfl, rfl, rfl⟩

theorem reverse_take_eq_drop_reverse {α : Type} (l : List α) (n : Nat) :
    (l.take n).reverse = l.reverse.drop (l.length - n) := by
  have h := @List.take_reverse α l.reverse n
  rw [List.reverse_reverse, List.length_reverse] at h
  rw [h, List.reverse_reverse]

/-- The `LIMIT n` page of `get_context_history`, reversed back to
chronological order, is the suffix of the full chronological history of
length `n` (the most recent `n` turns, oldest first). -/
theorem getContextHistory_limit_drop (db : HistDb) (name : String) (n : Nat) :
    getContextHistory db name (some n)
      = (getContextHistory db name none).drop
          ((getContextHistory db name none).length - n) := by
  simp only [getContextHistory]
  rw [List.length_map, List.length_reverse, ← List.map_drop]
  rw [← reverse_take_eq_drop_reverse]

/-- Claim C4 (confirmed): appending turns A, B, C to a context with no prior
turns makes `get_history` return `[A, B, C]` oldest-first (the newest-first
`ORDER BY timestamp DESC` page is reversed before returning), and with
`LIMIT n` it returns the most recent `n` of them, still oldest first.
(Timestamps are modelled as strictly increasing across appends;
`CURRENT_TIMESTAMP` has one-second granularity, so appends inside one
second would tie and their relative order is unspecified in SQLite.) -/
theorem C4_history_roundtrip_and_limit (db : HistDb)
    (x rA cA rB cB rC cC : String) (n : Nat)
    (hx : db.rows.filter (fun r => r.context_name == x) = []) :
    getContextHistory (addMessageToContext (addMessageToContext
        (addMessageToContext db x rA cA) x rB cB) x rC cC) x none
      = [(rA, cA), (rB, cB), (rC, cC)] ∧
    getContextHistory (addMessageToContext (addMessageToContext
        (addMessageToContext db x rA cA) x rB cB) x rC cC) x (some n)
      = [(rA, cA), (rB, cB), (rC, cC)].drop (3 - n) := by
  have h1 : ¬(db.nextTs + 1 + 1 ≤ db.nextTs + 1) := by omega
  have h2 : ¬(db.nextTs + 1 + 1 ≤ db.nextTs) := by omega
  have h3 : ¬(db.nextTs + 1 ≤ db.nextTs) := by omega
  have hfull : getContextHistory (addMessageToContext (addMessageToContext
      (addMessageToContext db x rA cA) x rB cB) x rC cC) x none
      = [(rA, cA), (rB, cB), (rC, cC)] := by
    simp [getContextHistory, addMessageToContext, List.filter_append, hx,
      List.insertionSort, List.orderedInsert, descByTs, h1, h2, h3]
  refine ⟨hfull, ?_⟩
  rw [getContextHistory_limit_drop, hfull]
  simp

/-- Witness for C4: turns `("user", "A")`, `("assistant", "B")`,
`("user", "C")` appended to context `"x"` of an empty store, with
`LIMIT 2`. -/
theorem C4_history_roundtrip_and_limit_witness :
    (⟨[], 0⟩ : HistDb).rows.filter (fun r => r.context_name == "x") = [] ∧
    (getContextHistory (addMessageToContext (addMessageToContext
        (addMessageToContext ⟨[], 0⟩ "x" "user" "A") "x" "assistant" "B")
        "x" "user" "C") "x" none
      = [("user", "A"), ("assistant", "B"), ("user", "C")] ∧
    getContextHistory (addMessageToContext (addMessageToContext
        (addMessageToContext ⟨[], 0⟩ "x" "user" "A") "x" "assistant" "B")
        "x" "user" "C") "x" (some 2)
      = [("user", "A"), ("assistant", "B"), ("user", "C")].drop (3 - 2)) :=
  ⟨rfl, C4_history_roundtrip_and_limit ⟨[], 0⟩ "x" "user" "A" "assistant" "B"
    "user" "C" 2 rfl⟩

/-- Claim C10 (confirmed): every enumerated configuration or transport
failure of `ask_local_llm` — missing config file, invalid config JSON,
missing `server_url`, request timeout, other request exception — is caught
inside the generator and yielded as a single human-readable error string
(the model's totality is the no-exception guarantee), and the driver loop
treats whatever the generator yields uniformly: with context enabled, the
joined yield is persisted as the newest `assistant` turn, so error text is
stored exactly like model output. -/
theorem C10_llm_errors_streamed_not_raised (msg : String)
    (http : ChatHttpOutcome) (db : HistDb) (ctx question : String) :
    askLocalLlm (.fileNotFound msg) http
        = ["Error processing configuration file: " ++ msg] ∧
    askLocalLlm (.jsonError msg) http
        = ["Error processing configuration file: " ++ msg] ∧
    askLocalLlm (.ok none) http
        = ["Error processing configuration file: Config error: 'server_url' is missing in llm_settings."] ∧
    (∀ url, askLocalLlm (.ok (some url)) .timeoutErr
        = ["Connection to LLM server timed out."]) ∧
    (∀ url, askLocalLlm (.ok (some url)) (.requestErr msg)
        = ["Connection error to LLM server: " ++ msg]) ∧
    (∀ tokens : List String,
      (mainAnswerFlow tokens true db ctx question).rows.getLast?.map
          (fun r => (r.context_name, r.role, r.content))
        = some (ctx, "assistant", String.join tokens)) := by
  refine ⟨rfl, rfl, rfl, fun _ => rfl, fun _ => rfl, ?_⟩
  intro tokens
  simp [mainAnswerFlow, addMessageToContext, List.getLast?_concat]

end RagScript
